import Mathlib

/-!
Shallow embedding of the EventManagerApp backend core and verification of its
specification: availability calendar, booking lifecycle and broadcast matching,
translated from `src/routes/availability.js`, `src/routes/bookings.js`,
`src/routes/broadcasts.js` and the Mongoose schemas in `src/models/Availability.js`
and `src/models/BroadcastRequest.js` (that file also holds the Booking schema).

Modelling conventions:
* ObjectIds are `Nat`; every newly created document takes `DB.nextId` as its id
  (Mongoose generates a fresh ObjectId per document).
* `Date` values are truncated to calendar-day granularity (`CalDate`): every
  route involved stores and queries dates at day granularity (the booking
  routes query with a whole-day `$gte/$lt` window).
* Times of day stay `String`s, because `POST /api/availability/check` compares
  them with JavaScript string comparison (`slot.startTime <= time`), while the
  Availability pre-save hook compares them after parsing to clock times; both
  comparisons are embedded separately.
* `doc.save()` runs full-document validation by default in Mongoose; a failed
  validation throws, reaching the route's catch block (HTTP 500, `serverError`
  below) with the document not persisted.  The validators embedded are the ones
  reachable through the modelled operations; field validators that only repeat
  a regex already satisfied by a copied value are kept out of the model but the
  asymmetric length bounds (booking `notes` <= 1000 vs broadcast `requirements`
  <= 2000) and the future-date validators are embedded.
* The Availability schema has no `notes`/`weekendAvailability` paths, so those
  route-level assignments are discarded on save (Mongoose strict mode) and do
  not appear in the record.
-/

namespace EventManagerApp

/-! ### Data model, operations and concrete fixtures -/

/-- A calendar day, `Date` truncated to day granularity. -/
structure CalDate where
  year : Nat
  month : Nat
  day : Nat
deriving DecidableEq, Repr

/-- Strict order on calendar days; models `value > new Date()` in the Mongoose
`date` validators at day granularity. -/
def CalDate.lt (a b : CalDate) : Bool :=
  decide (a.year < b.year) ||
    (decide (a.year = b.year) &&
      (decide (a.month < b.month) ||
        (decide (a.month = b.month) && decide (a.day < b.day))))

/-- Gregorian leap-year rule, as implemented by the JavaScript `Date` type. -/
def isLeapYear (y : Nat) : Bool :=
  (decide (y % 4 = 0) && decide (y % 100 ≠ 0)) || decide (y % 400 = 0)

/-- Number of days in a month; models `new Date(year, month + 1, 0).getDate()`. -/
def daysInMonth (year month : Nat) : Nat :=
  if month = 2 then (if isLeapYear year then 29 else 28)
  else if month = 4 ∨ month = 6 ∨ month = 9 ∨ month = 11 then 30
  else 31

/-- Day of the week of a Gregorian date, 0 = Sunday .. 6 = Saturday, matching
JavaScript `Date#getDay` (Sakamoto's congruence). -/
def dayOfWeek (y m d : Nat) : Nat :=
  let t : List Nat := [0, 3, 2, 5, 0, 3, 5, 1, 4, 6, 2, 4]
  let y2 := if m < 3 then y - 1 else y
  (y2 + y2 / 4 - y2 / 100 + y2 / 400 + t.getD (m - 1) 0 + d) % 7

/-- Lexicographic comparison of UTF-16 code units, i.e. JavaScript's `<=` on
strings (for the ASCII clock-time strings involved, code units coincide with
code points). -/
def charListLe : List Char → List Char → Bool
  | [], _ => true
  | _ :: _, [] => false
  | c1 :: r1, c2 :: r2 =>
    if c1.toNat < c2.toNat then true
    else if c2.toNat < c1.toNat then false
    else charListLe r1 r2

/-- JavaScript string `<=`, as used by `slot.startTime <= time` in the check
route. -/
def jsLe (a b : String) : Bool := charListLe a.data b.data

/-- Digits of a decimal string, folded to a `Nat`. -/
def charsToNat (cs : List Char) : Nat :=
  cs.foldl (fun n c => n * 10 + (c.toNat - 48)) 0

/-- Parse of an `HH:MM` string to minutes after midnight; models the pre-save
hook's clock-time comparison (the hook parses both slot times with `new Date`
and compares them).  Slot times are regex-validated to `H:MM`/`HH:MM` shape by
`timeSlotSchema`, and on such strings the minute comparison coincides with the
source's `Date` comparison. -/
def timeToMinutes (s : String) : Nat :=
  match s.data.span (fun c => decide (c ≠ ':')) with
  | (hs, _ :: ms) => charsToNat hs * 60 + charsToNat ms
  | (_, []) => 0

/-- Status enum shared by the day-level availability record and its time slots. -/
inductive SlotStatus
  | available
  | unavailable
  | booked
deriving DecidableEq, Repr

/-- Booking `status` enum. -/
inductive BookingStatus
  | Pending
  | Confirmed
  | Cancelled
  | Completed
deriving DecidableEq, Repr

/-- Broadcast-request `status` enum. -/
inductive BroadcastStatus
  | Open
  | Accepted
  | Expired
  | Completed
deriving DecidableEq, Repr

/-- A time slot of an availability record (`timeSlotSchema`). -/
structure TimeSlot where
  startTime : String
  endTime : String
  status : SlotStatus
  bookingId : Option Nat
deriving DecidableEq, Repr

/-- An availability record (`availabilitySchema`); one per (manager, day). -/
structure Availability where
  id : Nat
  managerId : Nat
  date : CalDate
  timeSlots : List TimeSlot
  isFullDay : Bool
  status : SlotStatus
deriving DecidableEq, Repr

/-- A booking document (`bookingSchema`, found in `src/models/BroadcastRequest.js`). -/
structure Booking where
  id : Nat
  customerName : String
  eventType : String
  location : String
  managerId : Nat
  date : CalDate
  time : String
  serviceIds : List Nat
  totalAmount : Nat
  notes : String
  status : BookingStatus
deriving DecidableEq, Repr

/-- A broadcast request (`broadcastRequestSchema`). -/
structure BroadcastRequest where
  id : Nat
  customerName : String
  eventType : String
  location : String
  guestCount : Nat
  date : CalDate
  time : String
  budget : Nat
  requirements : String
  status : BroadcastStatus
  acceptedBy : Option Nat
  acceptedAt : Option CalDate
deriving DecidableEq, Repr

/-- The persistent store: one list per collection, plus the id supply. -/
structure DB where
  availabilities : List Availability
  bookings : List Booking
  broadcasts : List BroadcastRequest
  nextId : Nat
deriving DecidableEq, Repr

/-- Outcomes of the modelled routes, by HTTP status and message family:
404 maps to `notFound`, business-rule 400 to `conflict` / `locked` /
`invalidRequest`, catch-block 500 to `serverError`. -/
inductive ApiResult
  | ok
  | notFound
  | conflict
  | locked
  | invalidRequest
  | serverError
deriving DecidableEq, Repr

/-- Models `Availability.findOne` on the (managerId, date) key. -/
def findAvail (db : DB) (m : Nat) (d : CalDate) : Option Availability :=
  db.availabilities.find? (fun a => decide (a.managerId = m ∧ a.date = d))

/-- Models `Availability.findOne` on the (_id, managerId) key. -/
def findAvailById (db : DB) (i m : Nat) : Option Availability :=
  db.availabilities.find? (fun a => decide (a.id = i ∧ a.managerId = m))

/-- Models `Booking.findOne` on the (_id, managerId) key. -/
def findBookingFor (db : DB) (i m : Nat) : Option Booking :=
  db.bookings.find? (fun b => decide (b.id = i ∧ b.managerId = m))

/-- Models `BroadcastRequest.findById`. -/
def findBroadcast (db : DB) (i : Nat) : Option BroadcastRequest :=
  db.broadcasts.find? (fun b => decide (b.id = i))

/-- Save of an existing availability document: overwrite by `_id`. -/
def putAvail (db : DB) (a : Availability) : DB :=
  { db with availabilities := db.availabilities.map (fun x => if x.id = a.id then a else x) }

/-- Save of a new availability document: insert with a fresh id. -/
def insertAvail (db : DB) (a : Availability) : DB :=
  { db with availabilities := db.availabilities ++ [a], nextId := db.nextId + 1 }

/-- Save of an existing booking document: overwrite by `_id`. -/
def putBooking (db : DB) (b : Booking) : DB :=
  { db with bookings := db.bookings.map (fun x => if x.id = b.id then b else x) }

/-- Save of a new booking document: insert with a fresh id. -/
def insertBooking (db : DB) (b : Booking) : DB :=
  { db with bookings := db.bookings ++ [b], nextId := db.nextId + 1 }

/-- Save of an existing broadcast document: overwrite by `_id`. -/
def putBroadcast (db : DB) (b : BroadcastRequest) : DB :=
  { db with broadcasts := db.broadcasts.map (fun x => if x.id = b.id then b else x) }

/-- A slot passes the pre-save hook's `start < end` check. -/
def validSlot (s : TimeSlot) : Bool :=
  decide (timeToMinutes s.startTime < timeToMinutes s.endTime)

/-- The Availability schema's pre-save validation: slots are required when not
full day, and every slot must satisfy `start < end`. -/
def validateAvailability (a : Availability) : Bool :=
  (a.isFullDay || !a.timeSlots.isEmpty) && a.timeSlots.all validSlot

/-- Booking save-time validation (the validators reachable in the model):
`date` strictly in the future, plus the string length bounds of the schema. -/
def validateBooking (now : CalDate) (b : Booking) : Bool :=
  CalDate.lt now b.date && decide (b.customerName.length ≤ 100) &&
    decide (b.eventType.length ≤ 100) && decide (b.location.length ≤ 500) &&
    decide (b.notes.length ≤ 1000)

/-- Broadcast save-time validation (the validators reachable in the model):
`date` strictly in the future, `guestCount` at least 1, string length bounds. -/
def validateBroadcast (now : CalDate) (b : BroadcastRequest) : Bool :=
  CalDate.lt now b.date && decide (1 ≤ b.guestCount) &&
    decide (b.customerName.length ≤ 100) && decide (b.eventType.length ≤ 100) &&
    decide (b.location.length ≤ 500) && decide (b.requirements.length ≤ 2000)

/-- Mutable payload of `POST /api/availability` (the request-body fields that the
Availability schema persists; `notes` and `weekendAvailability` are dropped by
the schema, and `setAllWeekends` is the separate batch entry point below). -/
structure AvailPayload where
  timeSlots : List TimeSlot
  isFullDay : Bool
  status : SlotStatus
deriving DecidableEq, Repr

/-- Route `POST /api/availability`, non-batch path (`setAllWeekends` false):
reject the 1st of the month, then upsert — overwrite the mutable fields of an
existing (manager, date) record in place, else insert a new record.  A failing
save (pre-save hook) reaches the catch block: `serverError`, nothing written. -/
def setAvailability (db : DB) (managerId : Nat) (date : CalDate) (p : AvailPayload) :
    ApiResult × DB :=
  if date.day = 1 then (.invalidRequest, db)
  else
    match findAvail db managerId date with
    | some a =>
        let a2 : Availability :=
          { a with timeSlots := p.timeSlots, isFullDay := p.isFullDay, status := p.status }
        if validateAvailability a2 then (.ok, putAvail db a2) else (.serverError, db)
    | none =>
        let a : Availability :=
          { id := db.nextId, managerId := managerId, date := date,
            timeSlots := p.timeSlots, isFullDay := p.isFullDay, status := p.status }
        if validateAvailability a then (.ok, insertAvail db a) else (.serverError, db)

/-- The slot list written by the weekend batch: the payload's slots, or the
default full-range slot when the payload has none. -/
def weekendSlots (p : AvailPayload) : List TimeSlot :=
  if p.timeSlots.isEmpty then
    [{ startTime := "00:00", endTime := "23:59", status := .available, bookingId := none }]
  else p.timeSlots

/-- All Saturdays and Sundays of the month, excluding a 1st-of-month, in day
order — the `weekendDates` computation of the batch path. -/
def weekendDates (year month : Nat) : List CalDate :=
  (List.range (daysInMonth year month)).filterMap (fun i =>
    let day := i + 1
    let dow := dayOfWeek year month day
    if (dow = 0 ∨ dow = 6) ∧ day ≠ 1 then some ⟨year, month, day⟩ else none)

/-- The per-date loop of the weekend batch: upsert each date in turn inside the
handler's single try block.  A failing save throws out of the loop to the
catch block: the request ends `serverError`, earlier iterations' writes remain
persisted, the remaining dates are never processed, and the accumulated
per-date results are discarded. -/
def setWeekendsLoop (managerId : Nat) (p : AvailPayload) :
    List CalDate → DB → List Availability → ApiResult × DB × List Availability
  | [], db, acc => (.ok, db, acc)
  | d :: rest, db, acc =>
    match findAvail db managerId d with
    | some a =>
        let a2 : Availability :=
          { a with timeSlots := weekendSlots p, isFullDay := p.isFullDay, status := p.status }
        if validateAvailability a2 then
          setWeekendsLoop managerId p rest (putAvail db a2) (acc ++ [a2])
        else (.serverError, db, acc)
    | none =>
        let a : Availability :=
          { id := db.nextId, managerId := managerId, date := d,
            timeSlots := weekendSlots p, isFullDay := p.isFullDay, status := p.status }
        if validateAvailability a then
          setWeekendsLoop managerId p rest (insertAvail db a) (acc ++ [a])
        else (.serverError, db, acc)

/-- Route `POST /api/availability` with `setAllWeekends: true`: the 1st-of-month
check runs on the body date first, then every weekend of that date's month is
processed by `setWeekendsLoop`. -/
def setAllWeekends (db : DB) (managerId : Nat) (bodyDate : CalDate) (p : AvailPayload) :
    ApiResult × DB × List Availability :=
  if bodyDate.day = 1 then (.invalidRequest, db, [])
  else setWeekendsLoop managerId p (weekendDates bodyDate.year bodyDate.month) db []

/-- Route `DELETE /api/availability/:id`: 404 when the record is missing for this
manager, 400 when the record's date is the 1st of a month, else
`findByIdAndDelete` — no other guard exists in the route. -/
def deleteAvailability (db : DB) (managerId i : Nat) : ApiResult × DB :=
  match findAvailById db i managerId with
  | none => (.notFound, db)
  | some a =>
    if a.date.day = 1 then (.locked, db)
    else (.ok, { db with availabilities := db.availabilities.filter (fun x => decide (x.id ≠ i)) })

/-- One slot satisfies the check route's condition: start at or before the given
time, end at or after it (JavaScript string comparison), and slot status
available. -/
def slotMatches (t : String) (s : TimeSlot) : Bool :=
  jsLe s.startTime t && jsLe t s.endTime && decide (s.status = .available)

/-- Route `POST /api/availability/check`, translated branch by branch from the
source: no record, not available; day status `unavailable`, not available;
full day, available iff day status `available`; a given time with a non-empty
slot list, some matching available slot; otherwise the day's aggregate status. -/
def checkAvailability (db : DB) (m : Nat) (d : CalDate) (time : Option String) : Bool :=
  match findAvail db m d with
  | none => false
  | some a =>
    if a.status = .unavailable then false
    else if a.isFullDay then decide (a.status = .available)
    else
      match time with
      | some t =>
          if !a.timeSlots.isEmpty then a.timeSlots.any (slotMatches t)
          else decide (a.status = .available)
      | none => decide (a.status = .available)

/-- The availability check as claim C5 (spec section 4.4) words it, for
comparison with the source translation: its step (b) is day status not equal
to `available` implies not available, and its step (d) applies whenever a time
is given. -/
def checkAvailabilityClaim (db : DB) (m : Nat) (d : CalDate) (time : Option String) : Bool :=
  match findAvail db m d with
  | none => false
  | some a =>
    if a.status ≠ .available then false
    else if a.isFullDay then decide (a.status = .available)
    else
      match time with
      | some t => a.timeSlots.any (slotMatches t)
      | none => decide (a.status = .available)

/-- The booked branch of `updateAvailabilityForBooking`: the day goes `booked`
and, when not full day, every slot is marked booked and stamped with the
booking's id. -/
def syncBooked (a : Availability) (bid : Nat) : Availability :=
  { a with
    status := .booked,
    timeSlots :=
      if a.isFullDay then a.timeSlots
      else a.timeSlots.map (fun s => { s with status := .booked, bookingId := some bid }) }

/-- The available branch of `updateAvailabilityForBooking`: the day goes
`available` and, when not full day, exactly the slots whose `bookingId` equals
this booking are reverted and cleared. -/
def syncAvailable (a : Availability) (bid : Nat) : Availability :=
  { a with
    status := .available,
    timeSlots :=
      if a.isFullDay then a.timeSlots
      else a.timeSlots.map (fun s =>
        if s.bookingId = some bid then { s with status := .available, bookingId := none } else s) }

/-- Helper `updateAvailabilityForBooking(booking, status)` of
`src/routes/bookings.js`: its whole body sits in a try/catch whose catch only
logs, so a missing record or a failing save leaves the store unchanged and
raises nothing. -/
def updateAvailabilityForBooking (db : DB) (b : Booking) (target : SlotStatus) : DB :=
  match findAvail db b.managerId b.date with
  | none => db
  | some a =>
    let a2 :=
      if target = .booked then syncBooked a b.id
      else if target = .available then syncAvailable a b.id
      else a
    if validateAvailability a2 then putAvail db a2 else db

/-- Route `PUT /api/bookings/:id/status`: after the express-validator enum check
(total here, since `BookingStatus` is the enum), the route looks the booking
up, overwrites its status unconditionally — there is no transition table — and
saves; only then does it run the calendar synchronisation for transitions into
Confirmed and for Confirmed to Cancelled. -/
def updateBookingStatus (now : CalDate) (db : DB) (bookingId managerId : Nat)
    (newStatus : BookingStatus) : ApiResult × DB :=
  match findBookingFor db bookingId managerId with
  | none => (.notFound, db)
  | some b =>
    let b2 : Booking := { b with status := newStatus }
    if validateBooking now b2 then
      let db1 := putBooking db b2
      let db2 :=
        if newStatus = .Confirmed ∧ b.status ≠ .Confirmed then
          updateAvailabilityForBooking db1 b2 .booked
        else if newStatus = .Cancelled ∧ b.status = .Confirmed then
          updateAvailabilityForBooking db1 b2 .available
        else db1
      (.ok, db2)
    else (.serverError, db)

/-- The accepted broadcast written by `PUT /api/broadcasts/:id/accept`. -/
def acceptedBroadcast (b : BroadcastRequest) (m : Nat) (now : CalDate) : BroadcastRequest :=
  { b with status := .Accepted, acceptedBy := some m, acceptedAt := some now }

/-- The booking derived from an accepted broadcast: empty `serviceIds`,
`totalAmount` copied from `budget`, a notes back-reference carrying the
requirements, status Pending. -/
def deriveBooking (b : BroadcastRequest) (m bid : Nat) : Booking :=
  { id := bid, customerName := b.customerName, eventType := b.eventType,
    location := b.location, managerId := m, date := b.date, time := b.time,
    serviceIds := [], totalAmount := b.budget,
    notes := "From broadcast request: " ++ b.requirements, status := .Pending }

/-- The part of `PUT /api/broadcasts/:id/accept` after `findById`: the status
check and both saves run on the snapshot `snap` that the read returned.  A
failing broadcast save leaves the store untouched; a failing booking save
leaves the broadcast already persisted as Accepted (no rollback). -/
def acceptCommit (now : CalDate) (db : DB) (snap : Option BroadcastRequest) (m : Nat) :
    ApiResult × DB :=
  match snap with
  | none => (.notFound, db)
  | some b =>
    if b.status ≠ .Open then (.conflict, db)
    else
      let b2 := acceptedBroadcast b m now
      if validateBroadcast now b2 then
        let db1 := putBroadcast db b2
        let bk := deriveBooking b m db1.nextId
        if validateBooking now bk then (.ok, insertBooking db1 bk)
        else (.serverError, db1)
      else (.serverError, db)

/-- Route `PUT /api/broadcasts/:id/accept` run in isolation: read then commit
with no interleaving. -/
def acceptBroadcast (now : CalDate) (db : DB) (broadcastId m : Nat) : ApiResult × DB :=
  acceptCommit now db (findBroadcast db broadcastId) m

/-- Local state of one in-flight accept call: the snapshot its `findById`
returned (once the read step has run) and its final result (once the commit
step has run). -/
structure AcceptCallState where
  managerId : Nat
  snap : Option (Option BroadcastRequest)
  result : Option ApiResult
deriving DecidableEq, Repr

/-- One atomic step of an in-flight accept call.  The source awaits between
`findById` and `save()`, so the read and the commit are separate atomic steps;
the commit itself (status check on the snapshot plus both saves) is taken as
one step, a conservative coarsening that only removes interleavings. -/
def acceptStep (now : CalDate) (broadcastId : Nat) (db : DB) (c : AcceptCallState) :
    DB × AcceptCallState :=
  match c.result with
  | some _ => (db, c)
  | none =>
    match c.snap with
    | none => (db, { c with snap := some (findBroadcast db broadcastId) })
    | some snap =>
      let r := acceptCommit now db snap c.managerId
      (r.2, { c with result := some r.1 })

/-- Run of a schedule of call indices: each entry advances the named in-flight
call by one atomic step against the shared store. -/
def runSchedule (now : CalDate) (broadcastId : Nat) :
    List Nat → DB → List AcceptCallState → DB × List AcceptCallState
  | [], db, cs => (db, cs)
  | i :: rest, db, cs =>
    match cs.get? i with
    | none => runSchedule now broadcastId rest db cs
    | some c =>
      let r := acceptStep now broadcastId db c
      runSchedule now broadcastId rest r.1 (cs.set i r.2)

/-- Two availability records with distinct ids and distinct (manager, date) keys:
the shape the unique compound index of `availabilitySchema` enforces,
pairwise. -/
def AvailDistinct (x y : Availability) : Prop :=
  x.id ≠ y.id ∧ ¬(x.managerId = y.managerId ∧ x.date = y.date)

instance : DecidableRel AvailDistinct := fun x y => by
  unfold AvailDistinct
  infer_instance

/-- Store well-formedness: availability ids and (manager, day) keys are pairwise
distinct, and every id is below the id supply. -/
def DBinv (db : DB) : Prop :=
  db.availabilities.Pairwise AvailDistinct ∧ ∀ x ∈ db.availabilities, x.id < db.nextId

instance (db : DB) : Decidable (DBinv db) := by
  unfold DBinv
  infer_instance

/-- Fixture for claim C1: a Completed booking of manager 7. -/
def c1Booking : Booking :=
  { id := 1, customerName := "Bob", eventType := "Wedding", location := "34 High St",
    managerId := 7, date := ⟨2025, 12, 20⟩, time := "10:00", serviceIds := [4],
    totalAmount := 100, notes := "", status := .Completed }

/-- Fixture store for claim C1. -/
def c1Db : DB := { availabilities := [], bookings := [c1Booking], broadcasts := [], nextId := 2 }

/-- Fixture for claim C3: an availability record on 2025-07-12 (not a 1st). -/
def c3Avail : Availability :=
  { id := 1, managerId := 7, date := ⟨2025, 7, 12⟩,
    timeSlots := [⟨"09:00", "17:00", .available, none⟩], isFullDay := false,
    status := .available }

/-- Fixture for claim C3: a Pending booking of the same manager on that date. -/
def c3Booking : Booking :=
  { id := 2, customerName := "Bob", eventType := "Wedding", location := "34 High St",
    managerId := 7, date := ⟨2025, 7, 12⟩, time := "10:00", serviceIds := [4],
    totalAmount := 100, notes := "", status := .Pending }

/-- Fixture store for claim C3. -/
def c3Db : DB :=
  { availabilities := [c3Avail], bookings := [c3Booking], broadcasts := [], nextId := 3 }

/-- Fixture for claim C5: a non-full-day record whose day-level status is
`booked` but which still has an `available` slot. -/
def c5Avail : Availability :=
  { id := 1, managerId := 7, date := ⟨2025, 7, 12⟩,
    timeSlots := [⟨"09:00", "11:00", .available, none⟩], isFullDay := false,
    status := .booked }

/-- Fixture store for claim C5. -/
def c5Db : DB := { availabilities := [c5Avail], bookings := [], broadcasts := [], nextId := 2 }

/-- Fixture for claim C7: a Pending booking. -/
def c7Booking : Booking :=
  { id := 1, customerName := "Bob", eventType := "Wedding", location := "34 High St",
    managerId := 7, date := ⟨2025, 12, 20⟩, time := "10:00", serviceIds := [4],
    totalAmount := 100, notes := "", status := .Pending }

/-- Fixture availability record for claim C7: non-full-day with two slots. -/
def c7Avail : Availability :=
  { id := 2, managerId := 7, date := ⟨2025, 12, 20⟩,
    timeSlots := [⟨"09:00", "10:00", .available, none⟩, ⟨"10:00", "11:00", .available, none⟩],
    isFullDay := false, status := .available }

/-- Fixture store for claim C7. -/
def c7Db : DB :=
  { availabilities := [c7Avail], bookings := [c7Booking], broadcasts := [], nextId := 3 }

/-- Fixture for claim C6: a Confirmed booking on 2025-12-20. -/
def c6Booking : Booking :=
  { id := 1, customerName := "Bob", eventType := "Wedding", location := "34 High St",
    managerId := 7, date := ⟨2025, 12, 20⟩, time := "10:00", serviceIds := [4],
    totalAmount := 100, notes := "", status := .Confirmed }

/-- Fixture for claim C6: a record with one slot booked by this booking and one
slot booked by an unrelated booking. -/
def c6Avail : Availability :=
  { id := 2, managerId := 7, date := ⟨2025, 12, 20⟩,
    timeSlots := [⟨"09:00", "10:00", .booked, some 1⟩, ⟨"10:00", "11:00", .booked, some 99⟩],
    isFullDay := false, status := .booked }

/-- Fixture store for claim C6. -/
def c6Db : DB :=
  { availabilities := [c6Avail], bookings := [c6Booking], broadcasts := [], nextId := 3 }

/-- Fixture for claim C8: a record whose slot has start after end, so any save of
it fails validation and the synchronisation's catch swallows the error. -/
def c8AvailBad : Availability :=
  { id := 3, managerId := 7, date := ⟨2025, 12, 20⟩,
    timeSlots := [⟨"10:00", "09:00", .booked, none⟩], isFullDay := false,
    status := .available }

/-- Fixture for claim C8: a Pending booking. -/
def c8Booking : Booking :=
  { id := 1, customerName := "Bob", eventType := "Wedding", location := "34 High St",
    managerId := 7, date := ⟨2025, 12, 20⟩, time := "10:00", serviceIds := [4],
    totalAmount := 100, notes := "", status := .Pending }

/-- Fixture store for claim C8. -/
def c8Db : DB :=
  { availabilities := [], bookings := [c8Booking], broadcasts := [], nextId := 4 }

/-- Fixture for claim C2: an Open broadcast with a future event date. -/
def c2Broadcast : BroadcastRequest :=
  { id := 1, customerName := "Ann", eventType := "Party", location := "12 Main St",
    guestCount := 50, date := ⟨2025, 7, 12⟩, time := "10:00", budget := 5000,
    requirements := "need a decorated stage", status := .Open,
    acceptedBy := none, acceptedAt := none }

/-- Fixture store for claim C2. -/
def c2Db : DB :=
  { availabilities := [], bookings := [], broadcasts := [c2Broadcast], nextId := 2 }

/-- Two in-flight accept calls on the same broadcast, by managers 7 and 8. -/
def c2Calls : List AcceptCallState :=
  [{ managerId := 7, snap := none, result := none },
   { managerId := 8, snap := none, result := none }]

/-- Fixture for claim C10: an Open broadcast whose `requirements` is 1000
characters — valid for the broadcast schema (limit 2000), but the derived
booking's notes (a 24-character prefix plus the requirements) exceed the
booking schema's 1000-character notes limit, so the booking save fails after
the broadcast save succeeded. -/
def c10Broadcast : BroadcastRequest :=
  { id := 1, customerName := "Ann", eventType := "Party", location := "12 Main St",
    guestCount := 50, date := ⟨2025, 7, 12⟩, time := "10:00", budget := 5000,
    requirements := String.mk (List.replicate 1000 'x'), status := .Open,
    acceptedBy := none, acceptedAt := none }

/-- Fixture store for claim C10. -/
def c10Db : DB :=
  { availabilities := [], bookings := [], broadcasts := [c10Broadcast], nextId := 2 }

/-- Fold of a sequence of `setAvailability` calls, given as
(manager, date, payload) triples. -/
def applySetAvailability (db : DB) (cs : List (Nat × CalDate × AvailPayload)) : DB :=
  cs.foldl (fun s c => (setAvailability s c.1 c.2.1 c.2.2).2) db

/-- Fixture store for claim C4: one existing record. -/
def c4Db : DB :=
  { availabilities :=
      [{ id := 1, managerId := 7, date := ⟨2025, 7, 12⟩,
         timeSlots := [⟨"09:00", "17:00", .available, none⟩], isFullDay := false,
         status := .available }],
    bookings := [], broadcasts := [], nextId := 2 }

/-- Fixture call list for claim C4: an overwrite of the existing day, a new day,
and a second write to that new day. -/
def c4Calls : List (Nat × CalDate × AvailPayload) :=
  [(7, ⟨2025, 7, 12⟩, ⟨[⟨"10:00", "12:00", .available, none⟩], false, .available⟩),
   (7, ⟨2025, 7, 13⟩, ⟨[], true, .unavailable⟩),
   (7, ⟨2025, 7, 13⟩, ⟨[⟨"08:00", "09:00", .available, none⟩], false, .available⟩)]

/-- The record the weekend batch writes over an existing record. -/
def payloadUpdate (a : Availability) (p : AvailPayload) : Availability :=
  { a with timeSlots := weekendSlots p, isFullDay := p.isFullDay, status := p.status }

/-- The record the weekend batch creates for an unrecorded date. -/
def payloadNew (i m : Nat) (d : CalDate) (p : AvailPayload) : Availability :=
  { id := i, managerId := m, date := d, timeSlots := weekendSlots p,
    isFullDay := p.isFullDay, status := p.status }

/-- Fixture for claim C9: a payload whose only slot has start after end, so every
save of it fails validation. -/
def c9BadPayload : AvailPayload :=
  { timeSlots := [⟨"10:00", "09:00", .available, none⟩], isFullDay := false,
    status := .available }

/-- Fixture store for claim C9: empty. -/
def c9Db : DB := { availabilities := [], bookings := [], broadcasts := [], nextId := 1 }

/-- Fixture for claim C9's witness: a valid one-slot payload. -/
def c9GoodPayload : AvailPayload :=
  { timeSlots := [⟨"09:00", "17:00", .available, none⟩], isFullDay := false,
    status := .available }

/-! ### Lemmas and claim theorems -/

theorem find?_map_replace {α β : Type} [DecidableEq β] (key : α → β) (p : α → Bool)
    (l : List α) (a a2 : α) (h : l.find? p = some a) (h2 : p a2 = true) :
    (l.map (fun x => if key x = key a then a2 else x)).find? p = some a2 := by
  induction l with
  | nil => simp at h
  | cons x xs ih =>
    rw [List.map_cons]
    by_cases hx : p x = true
    · rw [List.find?_cons_of_pos _ hx] at h
      injection h with h
      subst h
      simp only [if_pos rfl]
      exact List.find?_cons_of_pos _ h2
    · rw [List.find?_cons_of_neg _ hx] at h
      by_cases hk : key x = key a
      · simp only [if_pos hk]
        exact List.find?_cons_of_pos _ h2
      · simp only [if_neg hk]
        rw [List.find?_cons_of_neg _ hx]
        exact ih h

theorem find?_map_replace_of_neg {α β : Type} [DecidableEq β] (key : α → β) (p : α → Bool)
    (l : List α) (k : β) (a2 r : α) (h : l.find? p = some r) (hk : key r ≠ k)
    (h2 : p a2 = false) :
    (l.map (fun x => if key x = k then a2 else x)).find? p = some r := by
  induction l with
  | nil => simp at h
  | cons x xs ih =>
    rw [List.map_cons]
    by_cases hx : p x = true
    · rw [List.find?_cons_of_pos _ hx] at h
      injection h with h
      subst h
      simp only [if_neg hk]
      exact List.find?_cons_of_pos _ hx
    · rw [List.find?_cons_of_neg _ hx] at h
      by_cases hxk : key x = k
      · simp only [if_pos hxk]
        rw [List.find?_cons_of_neg _ (by simp [h2])]
        exact ih h
      · simp only [if_neg hxk]
        rw [List.find?_cons_of_neg _ hx]
        exact ih h

theorem findAvail_putAvail_same (db : DB) (m : Nat) (d : CalDate) (a a2 : Availability)
    (h : findAvail db m d = some a) (hid : a2.id = a.id) (hm : a2.managerId = m)
    (hd : a2.date = d) : findAvail (putAvail db a2) m d = some a2 := by
  simp only [findAvail, putAvail] at h ⊢
  rw [hid]
  exact find?_map_replace (fun x : Availability => x.id) _ db.availabilities a a2 h
    (by simp [hm, hd])

theorem findAvail_putAvail_other (db : DB) (m : Nat) (d : CalDate) (a2 r : Availability)
    (h : findAvail db m d = some r) (hk : r.id ≠ a2.id)
    (hno : ¬(a2.managerId = m ∧ a2.date = d)) :
    findAvail (putAvail db a2) m d = some r := by
  simp only [findAvail, putAvail] at h ⊢
  exact find?_map_replace_of_neg (fun x : Availability => x.id) _ db.availabilities a2.id a2 r h
    hk (by simpa using hno)

theorem findAvail_insertAvail_of_found (db : DB) (m : Nat) (d : CalDate) (a r : Availability)
    (h : findAvail db m d = some r) : findAvail (insertAvail db a) m d = some r := by
  simp only [findAvail, insertAvail] at h ⊢
  rw [List.find?_append, h]
  rfl

theorem findBookingFor_putBooking_same (db : DB) (i m : Nat) (b b2 : Booking)
    (h : findBookingFor db i m = some b) (hid : b2.id = b.id)
    (hm : b2.managerId = b.managerId) :
    findBookingFor (putBooking db b2) i m = some b2 := by
  simp only [findBookingFor, putBooking] at h ⊢
  have hp := List.find?_some h
  simp only [decide_eq_true_eq] at hp
  rw [hid]
  exact find?_map_replace (fun x : Booking => x.id) _ db.bookings b b2 h
    (by simp [hid, hm, hp.1, hp.2])

theorem findBroadcast_putBroadcast_same (db : DB) (i : Nat) (b b2 : BroadcastRequest)
    (h : findBroadcast db i = some b) (hid : b2.id = b.id) :
    findBroadcast (putBroadcast db b2) i = some b2 := by
  simp only [findBroadcast, putBroadcast] at h ⊢
  have hp := List.find?_some h
  simp only [decide_eq_true_eq] at hp
  rw [hid]
  exact find?_map_replace (fun x : BroadcastRequest => x.id) _ db.broadcasts b b2 h
    (by simp [hid, hp])

theorem bookings_updateAvailabilityForBooking (db : DB) (b : Booking) (t : SlotStatus) :
    (updateAvailabilityForBooking db b t).bookings = db.bookings := by
  unfold updateAvailabilityForBooking
  cases findAvail db b.managerId b.date with
  | none => rfl
  | some a =>
    dsimp only
    repeat' split
    all_goals rfl

theorem broadcasts_updateAvailabilityForBooking (db : DB) (b : Booking) (t : SlotStatus) :
    (updateAvailabilityForBooking db b t).broadcasts = db.broadcasts := by
  unfold updateAvailabilityForBooking
  cases findAvail db b.managerId b.date with
  | none => rfl
  | some a =>
    dsimp only
    repeat' split
    all_goals rfl

theorem availDistinct_symm : Symmetric AvailDistinct := by
  intro x y h
  exact ⟨fun e => h.1 e.symm, fun e => h.2 ⟨e.1.symm, e.2.symm⟩⟩

theorem mem_id_eq_of_pairwise {l : List Availability} (hp : l.Pairwise AvailDistinct)
    {a x : Availability} (ha : a ∈ l) (hx : x ∈ l) (hid : x.id = a.id) : x = a := by
  by_contra hne
  exact (hp.forall availDistinct_symm hx ha hne).1 hid

theorem pairwise_update {l : List Availability} (hp : l.Pairwise AvailDistinct)
    {a a2 : Availability} (ha : a ∈ l) (hid : a2.id = a.id)
    (hm : a2.managerId = a.managerId) (hd : a2.date = a.date) :
    (l.map (fun x => if x.id = a.id then a2 else x)).Pairwise AvailDistinct := by
  have hcongr : l.map (fun x => if x.id = a.id then a2 else x)
      = l.map (fun x => if x = a then a2 else x) := by
    apply List.map_congr_left
    intro x hx
    by_cases h1 : x.id = a.id
    · have h2 : x = a := mem_id_eq_of_pairwise hp ha hx h1
      simp [h1, h2]
    · have h2 : ¬ x = a := fun e => h1 (by rw [e])
      simp [h1, h2]
  rw [hcongr]
  apply hp.map
  intro u v huv
  by_cases hu : u = a <;> by_cases hv : v = a
  · rw [if_pos hu, if_pos hv]
    exact absurd (by rw [hu, hv]) huv.1
  · rw [if_pos hu, if_neg hv]
    refine ⟨?_, ?_⟩
    · rw [hid, ← hu]; exact huv.1
    · rw [hm, hd, ← hu]; exact huv.2
  · rw [if_neg hu, if_pos hv]
    refine ⟨?_, ?_⟩
    · rw [hid, ← hv]; exact huv.1
    · rw [hm, hd, ← hv]; exact huv.2
  · rw [if_neg hu, if_neg hv]
    exact huv

theorem DBinv_putAvail_update {db : DB} {m : Nat} {d : CalDate} {a a2 : Availability}
    (h : DBinv db) (hfind : findAvail db m d = some a) (hid : a2.id = a.id)
    (hm : a2.managerId = a.managerId) (hd : a2.date = a.date) :
    DBinv (putAvail db a2) := by
  have ha : a ∈ db.availabilities := List.mem_of_find?_eq_some hfind
  constructor
  · simp only [putAvail, hid]
    exact pairwise_update h.1 ha hid hm hd
  · intro y hy
    simp only [putAvail, List.mem_map] at hy
    obtain ⟨x, hx, hxy⟩ := hy
    by_cases hc : x.id = a2.id
    · rw [if_pos hc] at hxy
      rw [← hxy]
      show a2.id < db.nextId
      rw [hid]
      exact h.2 a ha
    · rw [if_neg hc] at hxy
      rw [← hxy]
      exact h.2 x hx

theorem DBinv_insertAvail {db : DB} {m : Nat} {d : CalDate} {a : Availability}
    (h : DBinv db) (hfind : findAvail db m d = none) (hid : a.id = db.nextId)
    (hm : a.managerId = m) (hd : a.date = d) :
    DBinv (insertAvail db a) := by
  have hnone : ∀ x ∈ db.availabilities, ¬(x.managerId = m ∧ x.date = d) := by
    intro x hx
    have := List.find?_eq_none.mp hfind x hx
    simpa using this
  constructor
  · simp only [insertAvail]
    rw [List.pairwise_append]
    refine ⟨h.1, by simp, ?_⟩
    intro x hx y hy
    simp only [List.mem_singleton] at hy
    subst hy
    constructor
    · intro e
      have hlt := h.2 x hx
      rw [e, hid] at hlt
      exact lt_irrefl _ hlt
    · intro e
      exact hnone x hx ⟨e.1.trans hm, e.2.trans hd⟩
  · intro y hy
    simp only [insertAvail, List.mem_append, List.mem_singleton] at hy
    rcases hy with h1 | h1
    · exact Nat.lt_succ_of_lt (h.2 y h1)
    · subst h1
      rw [hid]
      exact Nat.lt_succ_self _

theorem length_filter_le_one {l : List Availability} (hp : l.Pairwise AvailDistinct)
    (m : Nat) (d : CalDate) :
    (l.filter (fun a => decide (a.managerId = m ∧ a.date = d))).length ≤ 1 := by
  induction l with
  | nil => simp
  | cons x xs ih =>
    rcases List.pairwise_cons.mp hp with ⟨hx, hxs⟩
    by_cases hpx : x.managerId = m ∧ x.date = d
    · rw [List.filter_cons_of_pos (by simpa using hpx)]
      have hnil : xs.filter (fun a => decide (a.managerId = m ∧ a.date = d)) = [] := by
        rw [List.filter_eq_nil_iff]
        intro y hy
        simp only [decide_eq_true_eq]
        intro hpy
        exact (hx y hy).2 ⟨hpx.1.trans hpy.1.symm, hpx.2.trans hpy.2.symm⟩
      rw [hnil]
      simp
    · rw [List.filter_cons_of_neg (by simpa using hpx)]
      exact ih hxs

theorem findBookingFor_eq_of_bookings_eq {db1 db2 : DB} (h : db2.bookings = db1.bookings)
    (i m : Nat) : findBookingFor db2 i m = findBookingFor db1 i m := by
  unfold findBookingFor
  rw [h]

/-- C1 counterexample: the claim says `Completed` is terminal and any transition
out of it fails with InvalidTransition leaving the status unchanged; on the
code, updating the Completed booking to `Pending` succeeds and the stored
status becomes `Pending`. -/
theorem C1_completed_to_pending_succeeds :
    (updateBookingStatus ⟨2025, 7, 1⟩ c1Db 1 7 .Pending).1 = .ok ∧
      ((updateBookingStatus ⟨2025, 7, 1⟩ c1Db 1 7 .Pending).2.bookings.map Booking.status)
        = [.Pending] := by
  decide

/-- Core success fact of the status route: a found booking whose save validates
is overwritten with the requested status and the route reports ok. -/
theorem updateBookingStatus_ok
    (now : CalDate) (db : DB) (i m : Nat) (s : BookingStatus) (b : Booking)
    (hb : findBookingFor db i m = some b)
    (hv : validateBooking now { b with status := s } = true) :
    (updateBookingStatus now db i m s).1 = .ok ∧
      findBookingFor (updateBookingStatus now db i m s).2 i m = some { b with status := s } := by
  unfold updateBookingStatus
  rw [hb]
  dsimp only
  rw [if_pos hv]
  refine ⟨rfl, ?_⟩
  have hput : findBookingFor (putBooking db { b with status := s }) i m
      = some { b with status := s } :=
    findBookingFor_putBooking_same db i m b _ hb rfl rfl
  split
  · rw [findBookingFor_eq_of_bookings_eq (bookings_updateAvailabilityForBooking _ _ _)]
    exact hput
  · split
    · rw [findBookingFor_eq_of_bookings_eq (bookings_updateAvailabilityForBooking _ _ _)]
      exact hput
    · exact hput

/-- C1 (amended): `PUT /api/bookings/:id/status` performs no transition
validation at all: for any stored booking and any requested status in the
enum, the update succeeds (provided the booking document itself passes save
validation) and the status is overwritten with the requested value; no
InvalidTransition outcome exists in the route, and `Completed`/`Cancelled`
are not terminal. -/
theorem C1_updateStatus_no_transition_validation
    (now : CalDate) (db : DB) (i m : Nat) (s : BookingStatus) (b : Booking)
    (hb : findBookingFor db i m = some b)
    (hv : validateBooking now { b with status := s } = true) :
    (updateBookingStatus now db i m s).1 = .ok ∧
      findBookingFor (updateBookingStatus now db i m s).2 i m = some { b with status := s } :=
  updateBookingStatus_ok now db i m s b hb hv

/-- Witness for C1's amended theorem at a concrete input. -/
theorem C1_witness :
    findBookingFor c1Db 1 7 = some c1Booking ∧
      validateBooking ⟨2025, 7, 1⟩ { c1Booking with status := .Confirmed } = true ∧
      ((updateBookingStatus ⟨2025, 7, 1⟩ c1Db 1 7 .Confirmed).1 = .ok ∧
        findBookingFor (updateBookingStatus ⟨2025, 7, 1⟩ c1Db 1 7 .Confirmed).2 1 7
          = some { c1Booking with status := .Confirmed }) :=
  ⟨by decide, by decide,
    C1_updateStatus_no_transition_validation ⟨2025, 7, 1⟩ c1Db 1 7 .Confirmed c1Booking
      (by decide) (by decide)⟩

/-- C3 counterexample: a Pending booking exists for manager 7 on the record's
date, yet `DELETE /api/availability/:id` succeeds and removes the record —
the claimed Conflict guard does not exist in the route. -/
theorem C3_delete_ignores_live_booking :
    (∃ b ∈ c3Db.bookings, b.managerId = 7 ∧ b.date = c3Avail.date ∧ b.status = .Pending) ∧
      (deleteAvailability c3Db 7 1).1 = .ok ∧
      (deleteAvailability c3Db 7 1).2.availabilities = [] := by
  decide

/-- C3 (amended): `deleteAvailability` checks only that the record exists for
this manager and that its date is not the 1st of a month; it then deletes the
record unconditionally, even when Pending or Confirmed bookings exist for that
manager on that date (no Conflict guard). -/
theorem C3_delete_succeeds_regardless_of_bookings
    (db : DB) (m i : Nat) (a : Availability)
    (hfind : findAvailById db i m = some a) (hday : a.date.day ≠ 1)
    (_hlive : ∃ b ∈ db.bookings, b.managerId = m ∧ b.date = a.date ∧
      (b.status = .Pending ∨ b.status = .Confirmed)) :
    (deleteAvailability db m i).1 = .ok ∧
      (deleteAvailability db m i).2.availabilities
        = db.availabilities.filter (fun x => decide (x.id ≠ i)) ∧
      (deleteAvailability db m i).2.bookings = db.bookings := by
  unfold deleteAvailability
  rw [hfind]
  dsimp only
  rw [if_neg hday]
  exact ⟨rfl, rfl, rfl⟩

/-- Witness for C3's amended theorem at a concrete input. -/
theorem C3_witness :
    findAvailById c3Db 1 7 = some c3Avail ∧ c3Avail.date.day ≠ 1 ∧
      (∃ b ∈ c3Db.bookings, b.managerId = 7 ∧ b.date = c3Avail.date ∧
        (b.status = .Pending ∨ b.status = .Confirmed)) ∧
      ((deleteAvailability c3Db 7 1).1 = .ok ∧
        (deleteAvailability c3Db 7 1).2.availabilities
          = c3Db.availabilities.filter (fun x => decide (x.id ≠ 1)) ∧
        (deleteAvailability c3Db 7 1).2.bookings = c3Db.bookings) :=
  ⟨by decide, by decide, by decide,
    C3_delete_succeeds_regardless_of_bookings c3Db 7 1 c3Avail (by decide) (by decide)
      (by decide)⟩

/-- C5 counterexample: the claim's step (b) says a day-level status other than
`available` reports not available; the code only short-circuits on
`unavailable`, so with day status `booked` and a matching available slot the
source reports available while the claimed decision procedure reports not
available. -/
theorem C5_booked_day_slot_check_disagrees :
    checkAvailability c5Db 7 ⟨2025, 7, 12⟩ (some "10:00") = true ∧
      checkAvailabilityClaim c5Db 7 ⟨2025, 7, 12⟩ (some "10:00") = false := by
  decide

/-- C5 (amended): the actual decision order of `POST /api/availability/check`:
(a) no record, not available; (b) day-level status equal to `unavailable`,
not available (a `booked` day falls through); (c) full day, available iff the
day status is `available`; (d) a given time is matched against the slots only
when the slot list is non-empty, else (e) the day's aggregate status decides. -/
theorem C5_check_decision_order (db : DB) (m : Nat) (d : CalDate) (time : Option String) :
    checkAvailability db m d time = true ↔
      ∃ a, findAvail db m d = some a ∧ a.status ≠ .unavailable ∧
        ((a.isFullDay = true ∧ a.status = .available) ∨
         (a.isFullDay = false ∧
           ((∃ t, time = some t ∧ a.timeSlots ≠ [] ∧
              ∃ s ∈ a.timeSlots, jsLe s.startTime t = true ∧ jsLe t s.endTime = true ∧
                s.status = .available) ∨
            ((time = none ∨ ∃ t, time = some t ∧ a.timeSlots = []) ∧
              a.status = .available)))) := by
  cases hf : findAvail db m d with
  | none => simp [checkAvailability, hf]
  | some a =>
    simp only [checkAvailability, hf]
    by_cases hu : a.status = .unavailable
    · simp [hu]
    · rw [if_neg hu]
      by_cases hfd : a.isFullDay
      · simp only [if_pos hfd]
        simp [hfd, hu, decide_eq_true_eq]
      · simp only [if_neg hfd]
        cases time with
        | none =>
          simp only [Bool.not_eq_true] at hfd
          simp [hfd, hu, decide_eq_true_eq]
        | some t =>
          simp only [Bool.not_eq_true] at hfd
          by_cases hts : a.timeSlots = []
          · simp [hts, hfd, hu, decide_eq_true_eq]
          · have hne : (!a.timeSlots.isEmpty) = true := by
              simp [List.isEmpty_iff, hts]
            simp [hne, List.any_eq_true, slotMatches, hfd, hu, hts, decide_eq_true_eq,
              and_assoc]

/-- Slot validity depends only on the slot's times. -/
theorem validSlot_update_fields (s : TimeSlot) (st : SlotStatus) (bid : Option Nat) :
    validSlot { s with status := st, bookingId := bid } = validSlot s := rfl

/-- Marking a valid record booked keeps it valid: the slot times are unchanged. -/
theorem validateAvailability_syncBooked (a : Availability) (bid : Nat)
    (h : validateAvailability a = true) :
    validateAvailability (syncBooked a bid) = true := by
  unfold validateAvailability at h ⊢
  unfold syncBooked
  cases hfd : a.isFullDay with
  | true => simpa [hfd] using h
  | false =>
    simp only [hfd, Bool.false_or, Bool.and_eq_true, Bool.not_eq_true'] at h ⊢
    simp only [if_neg (Bool.false_ne_true)]
    refine ⟨?_, ?_⟩
    · simpa [List.isEmpty_iff] using h.1
    · rw [List.all_map]
      simpa [Function.comp, validSlot] using h.2

/-- Reverting a valid record keeps it valid: the slot times are unchanged. -/
theorem validateAvailability_syncAvailable (a : Availability) (bid : Nat)
    (h : validateAvailability a = true) :
    validateAvailability (syncAvailable a bid) = true := by
  unfold validateAvailability at h ⊢
  unfold syncAvailable
  cases hfd : a.isFullDay with
  | true => simpa [hfd] using h
  | false =>
    simp only [hfd, Bool.false_or, Bool.and_eq_true, Bool.not_eq_true'] at h ⊢
    simp only [if_neg (Bool.false_ne_true)]
    refine ⟨?_, ?_⟩
    · simpa [List.isEmpty_iff] using h.1
    · rw [List.all_map]
      have : ∀ s : TimeSlot,
          validSlot (if s.bookingId = some bid then
            { s with status := .available, bookingId := none } else s) = validSlot s := by
        intro s
        split
        · rfl
        · rfl
      simpa [Function.comp, this] using h.2

/-- C7: on every transition into Confirmed, when an availability record exists
for (manager, booking date) and was valid when saved, the synchronisation
marks the day `booked` and — when the record is not full-day — marks every
slot of the day `booked` and stamps the confirmed booking's id on each slot
(per the source behaviour flagged in spec section 9, the slots are not
filtered by the booking's time window). -/
theorem C7_confirm_marks_day_and_slots_booked
    (now : CalDate) (db : DB) (i m : Nat) (b : Booking) (a : Availability)
    (hb : findBookingFor db i m = some b)
    (hbs : b.status ≠ .Confirmed)
    (hv : validateBooking now { b with status := .Confirmed } = true)
    (ha : findAvail db b.managerId b.date = some a)
    (hva : validateAvailability a = true) :
    (updateBookingStatus now db i m .Confirmed).1 = .ok ∧
      ∃ a2, findAvail (updateBookingStatus now db i m .Confirmed).2 b.managerId b.date
          = some a2 ∧
        a2.status = .booked ∧ a2.isFullDay = a.isFullDay ∧
        (a.isFullDay = false →
          a2.timeSlots.length = a.timeSlots.length ∧
          ∀ s ∈ a2.timeSlots, s.status = .booked ∧ s.bookingId = some b.id) := by
  have hkey := List.find?_some ha
  simp only [decide_eq_true_eq] at hkey
  unfold updateBookingStatus
  rw [hb]
  dsimp only
  rw [if_pos hv, if_pos ⟨rfl, hbs⟩]
  refine ⟨rfl, ?_⟩
  unfold updateAvailabilityForBooking
  have ha1 : findAvail (putBooking db { b with status := BookingStatus.Confirmed })
      b.managerId b.date = some a := ha
  rw [ha1]
  dsimp only
  rw [if_pos rfl, if_pos (validateAvailability_syncBooked a b.id hva)]
  refine ⟨syncBooked a b.id, ?_, rfl, rfl, ?_⟩
  · exact findAvail_putAvail_same _ b.managerId b.date a _ ha1 rfl hkey.1 hkey.2
  · intro hfd
    unfold syncBooked
    rw [hfd]
    dsimp only
    rw [if_neg (Bool.false_ne_true)]
    refine ⟨List.length_map _ _, ?_⟩
    intro s hs
    rcases List.mem_map.mp hs with ⟨x, _, hx⟩
    rw [← hx]
    exact ⟨rfl, rfl⟩

/-- Witness for C7 at a concrete input. -/
theorem C7_witness :
    findBookingFor c7Db 1 7 = some c7Booking ∧ c7Booking.status ≠ .Confirmed ∧
      validateBooking ⟨2025, 7, 1⟩ { c7Booking with status := .Confirmed } = true ∧
      findAvail c7Db c7Booking.managerId c7Booking.date = some c7Avail ∧
      validateAvailability c7Avail = true ∧
      ((updateBookingStatus ⟨2025, 7, 1⟩ c7Db 1 7 .Confirmed).1 = .ok ∧
        ∃ a2, findAvail (updateBookingStatus ⟨2025, 7, 1⟩ c7Db 1 7 .Confirmed).2
            c7Booking.managerId c7Booking.date = some a2 ∧
          a2.status = .booked ∧ a2.isFullDay = c7Avail.isFullDay ∧
          (c7Avail.isFullDay = false →
            a2.timeSlots.length = c7Avail.timeSlots.length ∧
            ∀ s ∈ a2.timeSlots, s.status = .booked ∧ s.bookingId = some c7Booking.id)) :=
  ⟨by decide, by decide, by decide, by decide, by decide,
    C7_confirm_marks_day_and_slots_booked ⟨2025, 7, 1⟩ c7Db 1 7 c7Booking c7Avail
      (by decide) (by decide) (by decide) (by decide) (by decide)⟩

/-- C6: on the transition Confirmed to Cancelled of a booking with a matching
non-full-day availability record, the day status reverts to `available` and,
slot by slot, exactly the slots whose `bookingId` equals the cancelled
booking's id are reverted to `available` with their `bookingId` cleared;
every other slot — in particular one referencing a different booking — is
kept unchanged. -/
theorem C6_cancel_clears_only_own_slots
    (now : CalDate) (db : DB) (i m : Nat) (b : Booking) (a : Availability)
    (hb : findBookingFor db i m = some b)
    (hbs : b.status = .Confirmed)
    (hv : validateBooking now { b with status := .Cancelled } = true)
    (ha : findAvail db b.managerId b.date = some a)
    (hfd : a.isFullDay = false)
    (hva : validateAvailability a = true) :
    (updateBookingStatus now db i m .Cancelled).1 = .ok ∧
      ∃ a2, findAvail (updateBookingStatus now db i m .Cancelled).2 b.managerId b.date
          = some a2 ∧
        a2.status = .available ∧ a2.timeSlots.length = a.timeSlots.length ∧
        ∀ (j : Nat) (hj : j < a.timeSlots.length),
          a2.timeSlots[j]?
            = some (if (a.timeSlots.get ⟨j, hj⟩).bookingId = some b.id then
                { a.timeSlots.get ⟨j, hj⟩ with status := .available, bookingId := none }
              else a.timeSlots.get ⟨j, hj⟩) := by
  have hkey := List.find?_some ha
  simp only [decide_eq_true_eq] at hkey
  unfold updateBookingStatus
  rw [hb]
  dsimp only
  rw [if_pos hv,
    if_neg (show ¬(BookingStatus.Cancelled = BookingStatus.Confirmed ∧
      b.status ≠ BookingStatus.Confirmed) by simp),
    if_pos ⟨rfl, hbs⟩]
  refine ⟨rfl, ?_⟩
  unfold updateAvailabilityForBooking
  have ha1 : findAvail (putBooking db { b with status := BookingStatus.Cancelled })
      b.managerId b.date = some a := ha
  rw [ha1]
  dsimp only
  rw [if_neg (show ¬(SlotStatus.available = SlotStatus.booked) by simp),
    if_pos (show SlotStatus.available = SlotStatus.available from rfl),
    if_pos (validateAvailability_syncAvailable a b.id hva)]
  have hslots : (syncAvailable a b.id).timeSlots
      = a.timeSlots.map (fun s =>
          if s.bookingId = some b.id then
            { s with status := SlotStatus.available, bookingId := none } else s) := by
    unfold syncAvailable
    rw [hfd]
    dsimp only
    rw [if_neg (Bool.false_ne_true)]
  refine ⟨syncAvailable a b.id, ?_, rfl, ?_, ?_⟩
  · exact findAvail_putAvail_same _ b.managerId b.date a _ ha1 rfl hkey.1 hkey.2
  · rw [hslots]
    exact List.length_map _ _
  · intro j hj
    rw [hslots, List.getElem?_map, List.getElem?_eq_getElem hj]
    simp [List.get_eq_getElem]

/-- Witness for C6 at a concrete input. -/
theorem C6_witness :
    findBookingFor c6Db 1 7 = some c6Booking ∧ c6Booking.status = .Confirmed ∧
      validateBooking ⟨2025, 7, 1⟩ { c6Booking with status := .Cancelled } = true ∧
      findAvail c6Db c6Booking.managerId c6Booking.date = some c6Avail ∧
      c6Avail.isFullDay = false ∧ validateAvailability c6Avail = true ∧
      ((updateBookingStatus ⟨2025, 7, 1⟩ c6Db 1 7 .Cancelled).1 = .ok ∧
        ∃ a2, findAvail (updateBookingStatus ⟨2025, 7, 1⟩ c6Db 1 7 .Cancelled).2
            c6Booking.managerId c6Booking.date = some a2 ∧
          a2.status = .available ∧ a2.timeSlots.length = c6Avail.timeSlots.length ∧
          ∀ (j : Nat) (hj : j < c6Avail.timeSlots.length),
            a2.timeSlots[j]?
              = some (if (c6Avail.timeSlots.get ⟨j, hj⟩).bookingId = some c6Booking.id then
                  { c6Avail.timeSlots.get ⟨j, hj⟩ with
                      status := .available, bookingId := none }
                else c6Avail.timeSlots.get ⟨j, hj⟩)) :=
  ⟨by decide, by decide, by decide, by decide, by decide, by decide,
    C6_cancel_clears_only_own_slots ⟨2025, 7, 1⟩ c6Db 1 7 c6Booking c6Avail
      (by decide) (by decide) (by decide) (by decide) (by decide) (by decide)⟩

/-- C8: calendar synchronisation can never affect the booking outcome: once the
booking is found and its save validates, the status update reports success
and persists the new status whatever the calendar collection contains — in
particular when the availability record was deleted (the lookup misses) or
its save fails (the try/catch swallows the error); a synchronisation failure
is never propagated to the caller and never undoes the booking's new status. -/
theorem C8_sync_failure_never_affects_booking
    (now : CalDate) (db : DB) (i m : Nat) (s : BookingStatus) (b : Booking)
    (hb : findBookingFor db i m = some b)
    (hv : validateBooking now { b with status := s } = true) :
    ∀ av2 : List Availability,
      (updateBookingStatus now { db with availabilities := av2 } i m s).1 = .ok ∧
        findBookingFor (updateBookingStatus now { db with availabilities := av2 } i m s).2 i m
          = some { b with status := s } := by
  intro av2
  exact updateBookingStatus_ok now { db with availabilities := av2 } i m s b hb hv

/-- Witness for C8 at a concrete input whose calendar state makes the
synchronisation save fail: the update still succeeds, the booking is
Confirmed, and the invalid record is left untouched. -/
theorem C8_witness :
    findBookingFor c8Db 1 7 = some c8Booking ∧
      validateBooking ⟨2025, 7, 1⟩ { c8Booking with status := .Confirmed } = true ∧
      ((updateBookingStatus ⟨2025, 7, 1⟩ { c8Db with availabilities := [c8AvailBad] }
          1 7 .Confirmed).1 = .ok ∧
        findBookingFor (updateBookingStatus ⟨2025, 7, 1⟩
            { c8Db with availabilities := [c8AvailBad] } 1 7 .Confirmed).2 1 7
          = some { c8Booking with status := .Confirmed }) ∧
      validateAvailability c8AvailBad = false ∧
      (updateBookingStatus ⟨2025, 7, 1⟩ { c8Db with availabilities := [c8AvailBad] }
          1 7 .Confirmed).2.availabilities = [c8AvailBad] :=
  ⟨by decide, by decide,
    C8_sync_failure_never_affects_booking ⟨2025, 7, 1⟩ c8Db 1 7 .Confirmed c8Booking
      (by decide) (by decide) [c8AvailBad],
    by decide, by decide⟩

/-- C2 counterexample: under the interleaving read of call 0, read of call 1,
commit of call 0, commit of call 1 — realisable because the route's status
check is a read followed by a separate save, not an atomic compare-and-set —
both concurrent accepts of the same Open broadcast succeed (the claim says
exactly one may), the stored `acceptedBy` is the last writer's, and two
bookings are derived. -/
theorem C2_interleaved_accepts_both_succeed :
    ((runSchedule ⟨2025, 7, 1⟩ 1 [0, 1, 0, 1] c2Db c2Calls).2.map AcceptCallState.result)
        = [some .ok, some .ok] ∧
      ((runSchedule ⟨2025, 7, 1⟩ 1 [0, 1, 0, 1] c2Db c2Calls).1.broadcasts.map
          (fun b => (b.status, b.acceptedBy))) = [(.Accepted, some 8)] ∧
      (runSchedule ⟨2025, 7, 1⟩ 1 [0, 1, 0, 1] c2Db c2Calls).1.bookings.length = 2 := by
  decide

/-- An accept of a broadcast whose stored status is not Open reports Conflict
and leaves the store unchanged. -/
theorem acceptBroadcast_conflict (now : CalDate) (db : DB) (i m : Nat)
    (b : BroadcastRequest) (hb : findBroadcast db i = some b)
    (hs : b.status ≠ .Open) : acceptBroadcast now db i m = (.conflict, db) := by
  unfold acceptBroadcast acceptCommit
  rw [hb]
  dsimp only
  rw [if_pos hs]

/-- C2 (amended): the sequential contract holds — `NotFound` when the broadcast
is missing and `Conflict` when its status is not Open are the route's checks,
and when two accepts run serially the first succeeds, the second observes
`Conflict` without changing the store, and the broadcast ends Accepted with
the first manager as its only `acceptedBy` — but the check and the write are
not one atomic compare-and-set, so under interleaving the exactly-one-success
property fails (see the counterexample). -/
theorem C2_serialized_first_accept_wins
    (now : CalDate) (db : DB) (i m1 m2 : Nat) (b : BroadcastRequest)
    (hb : findBroadcast db i = some b) (hopen : b.status = .Open)
    (hvb : validateBroadcast now (acceptedBroadcast b m1 now) = true)
    (hvk : validateBooking now (deriveBooking b m1 db.nextId) = true) :
    (acceptBroadcast now db i m1).1 = .ok ∧
      (acceptBroadcast now (acceptBroadcast now db i m1).2 i m2).1 = .conflict ∧
      (acceptBroadcast now (acceptBroadcast now db i m1).2 i m2).2
        = (acceptBroadcast now db i m1).2 ∧
      findBroadcast (acceptBroadcast now db i m1).2 i = some (acceptedBroadcast b m1 now) := by
  have hfound : findBroadcast (acceptBroadcast now db i m1).2 i
      = some (acceptedBroadcast b m1 now) := by
    unfold acceptBroadcast acceptCommit
    rw [hb]
    dsimp only
    rw [if_neg (show ¬(b.status ≠ BroadcastStatus.Open) by simp [hopen]), if_pos hvb]
    have hvk2 : validateBooking now
        (deriveBooking b m1 (putBroadcast db (acceptedBroadcast b m1 now)).nextId) = true := hvk
    rw [if_pos hvk2]
    dsimp only
    exact findBroadcast_putBroadcast_same db i b _ hb rfl
  have hr1 : (acceptBroadcast now db i m1).1 = .ok := by
    unfold acceptBroadcast acceptCommit
    rw [hb]
    dsimp only
    rw [if_neg (show ¬(b.status ≠ BroadcastStatus.Open) by simp [hopen]), if_pos hvb]
    have hvk2 : validateBooking now
        (deriveBooking b m1 (putBroadcast db (acceptedBroadcast b m1 now)).nextId) = true := hvk
    rw [if_pos hvk2]
  have hstat : (acceptedBroadcast b m1 now).status ≠ BroadcastStatus.Open := by
    simp [acceptedBroadcast]
  have h2 := acceptBroadcast_conflict now (acceptBroadcast now db i m1).2 i m2 _ hfound hstat
  exact ⟨hr1, by rw [h2], by rw [h2], hfound⟩

/-- Witness for C2's amended theorem at a concrete input. -/
theorem C2_witness :
    findBroadcast c2Db 1 = some c2Broadcast ∧ c2Broadcast.status = .Open ∧
      validateBroadcast ⟨2025, 7, 1⟩ (acceptedBroadcast c2Broadcast 7 ⟨2025, 7, 1⟩) = true ∧
      validateBooking ⟨2025, 7, 1⟩ (deriveBooking c2Broadcast 7 c2Db.nextId) = true ∧
      ((acceptBroadcast ⟨2025, 7, 1⟩ c2Db 1 7).1 = .ok ∧
        (acceptBroadcast ⟨2025, 7, 1⟩ (acceptBroadcast ⟨2025, 7, 1⟩ c2Db 1 7).2 1 8).1
          = .conflict ∧
        (acceptBroadcast ⟨2025, 7, 1⟩ (acceptBroadcast ⟨2025, 7, 1⟩ c2Db 1 7).2 1 8).2
          = (acceptBroadcast ⟨2025, 7, 1⟩ c2Db 1 7).2 ∧
        findBroadcast (acceptBroadcast ⟨2025, 7, 1⟩ c2Db 1 7).2 1
          = some (acceptedBroadcast c2Broadcast 7 ⟨2025, 7, 1⟩)) :=
  ⟨by decide, by decide, by decide, by decide,
    C2_serialized_first_accept_wins ⟨2025, 7, 1⟩ c2Db 1 7 8 c2Broadcast
      (by decide) (by decide) (by decide) (by decide)⟩

/-- C10: the route persists the broadcast as Accepted (with `acceptedBy` and
`acceptedAt`) before creating the derived booking; when the booking's save
then fails validation, the request ends in the catch block (500) while the
broadcast stays Accepted and no booking is created — acceptance and booking
creation are not atomic and the broadcast update is not rolled back. -/
theorem C10_accept_persists_before_booking
    (now : CalDate) (db : DB) (i m : Nat) (b : BroadcastRequest)
    (hb : findBroadcast db i = some b) (hopen : b.status = .Open)
    (hvb : validateBroadcast now (acceptedBroadcast b m now) = true)
    (hvk : validateBooking now (deriveBooking b m db.nextId) = false) :
    (acceptBroadcast now db i m).1 = .serverError ∧
      findBroadcast (acceptBroadcast now db i m).2 i = some (acceptedBroadcast b m now) ∧
      (acceptedBroadcast b m now).status = .Accepted ∧
      (acceptedBroadcast b m now).acceptedBy = some m ∧
      (acceptBroadcast now db i m).2.bookings = db.bookings := by
  unfold acceptBroadcast acceptCommit
  rw [hb]
  dsimp only
  rw [if_neg (show ¬(b.status ≠ BroadcastStatus.Open) by simp [hopen]), if_pos hvb]
  have hvk2 : ¬(validateBooking now
      (deriveBooking b m (putBroadcast db (acceptedBroadcast b m now)).nextId) = true) := by
    have : validateBooking now
        (deriveBooking b m (putBroadcast db (acceptedBroadcast b m now)).nextId) = false := hvk
    rw [this]
    exact Bool.false_ne_true
  rw [if_neg hvk2]
  exact ⟨rfl, findBroadcast_putBroadcast_same db i b _ hb rfl, rfl, rfl, rfl⟩

set_option maxRecDepth 100000 in

/-- Witness for C10 at a concrete input. -/
theorem C10_witness :
    findBroadcast c10Db 1 = some c10Broadcast ∧ c10Broadcast.status = .Open ∧
      validateBroadcast ⟨2025, 7, 1⟩ (acceptedBroadcast c10Broadcast 7 ⟨2025, 7, 1⟩) = true ∧
      validateBooking ⟨2025, 7, 1⟩ (deriveBooking c10Broadcast 7 c10Db.nextId) = false ∧
      ((acceptBroadcast ⟨2025, 7, 1⟩ c10Db 1 7).1 = .serverError ∧
        findBroadcast (acceptBroadcast ⟨2025, 7, 1⟩ c10Db 1 7).2 1
          = some (acceptedBroadcast c10Broadcast 7 ⟨2025, 7, 1⟩) ∧
        (acceptedBroadcast c10Broadcast 7 ⟨2025, 7, 1⟩).status = .Accepted ∧
        (acceptedBroadcast c10Broadcast 7 ⟨2025, 7, 1⟩).acceptedBy = some 7 ∧
        (acceptBroadcast ⟨2025, 7, 1⟩ c10Db 1 7).2.bookings = c10Db.bookings) :=
  ⟨by decide, by decide, by decide, by decide,
    C10_accept_persists_before_booking ⟨2025, 7, 1⟩ c10Db 1 7 c10Broadcast
      (by decide) (by decide) (by decide) (by decide)⟩

/-- One `setAvailability` call preserves store well-formedness. -/
theorem DBinv_setAvailability (db : DB) (m : Nat) (d : CalDate) (p : AvailPayload)
    (h : DBinv db) : DBinv (setAvailability db m d p).2 := by
  unfold setAvailability
  split
  · exact h
  · cases hf : findAvail db m d with
    | some a =>
      dsimp only
      split
      · exact DBinv_putAvail_update h hf rfl rfl rfl
      · exact h
    | none =>
      dsimp only
      split
      · exact DBinv_insertAvail h hf rfl rfl rfl
      · exact h

/-- Any sequence of `setAvailability` calls preserves store well-formedness. -/
theorem DBinv_applySetAvailability (cs : List (Nat × CalDate × AvailPayload)) :
    ∀ db : DB, DBinv db → DBinv (applySetAvailability db cs) := by
  induction cs with
  | nil =>
    intro db h
    exact h
  | cons c rest ih =>
    intro db h
    exact ih _ (DBinv_setAvailability db c.1 c.2.1 c.2.2 h)

/-- C4: starting from a well-formed store, after any sequence of
`setAvailability` calls at most one availability record exists per
(manager, day); and a call whose (manager, day) already has a record
overwrites it in place — the number of records does not grow. -/
theorem C4_at_most_one_record_per_manager_day
    (db : DB) (h : DBinv db) (cs : List (Nat × CalDate × AvailPayload)) :
    (∀ m d, ((applySetAvailability db cs).availabilities.filter
        (fun a => decide (a.managerId = m ∧ a.date = d))).length ≤ 1) ∧
      ∀ m d p a, findAvail db m d = some a →
        (setAvailability db m d p).2.availabilities.length = db.availabilities.length := by
  constructor
  · intro m d
    exact length_filter_le_one (DBinv_applySetAvailability cs db h).1 m d
  · intro m d p a hf
    unfold setAvailability
    split
    · rfl
    · rw [hf]
      dsimp only
      split
      · simp [putAvail]
      · rfl

/-- Witness for C4 at a concrete input. -/
theorem C4_witness :
    DBinv c4Db ∧
      ((∀ m d, ((applySetAvailability c4Db c4Calls).availabilities.filter
          (fun a => decide (a.managerId = m ∧ a.date = d))).length ≤ 1) ∧
        ∀ m d p a, findAvail c4Db m d = some a →
          (setAvailability c4Db m d p).2.availabilities.length
            = c4Db.availabilities.length) :=
  ⟨by decide, C4_at_most_one_record_per_manager_day c4Db (by decide) c4Calls⟩

theorem weekendSlots_ne_nil (p : AvailPayload) : weekendSlots p ≠ [] := by
  unfold weekendSlots
  split
  · simp
  · next h =>
    simpa [List.isEmpty_iff] using h

theorem weekendSlots_of_ne_nil (p : AvailPayload) (h : p.timeSlots ≠ []) :
    weekendSlots p = p.timeSlots := by
  unfold weekendSlots
  rw [if_neg (by simp [List.isEmpty_iff, h])]

theorem weekendSlots_valid (p : AvailPayload)
    (h : ∀ s ∈ p.timeSlots, validSlot s = true) :
    ∀ s ∈ weekendSlots p, validSlot s = true := by
  unfold weekendSlots
  split
  · intro s hs
    simp only [List.mem_singleton] at hs
    subst hs
    decide
  · exact h

theorem validateAvailability_true_of (a : Availability) (hne : a.timeSlots ≠ [])
    (hv : ∀ s ∈ a.timeSlots, validSlot s = true) : validateAvailability a = true := by
  unfold validateAvailability
  rw [Bool.and_eq_true, Bool.or_eq_true]
  refine ⟨Or.inr ?_, ?_⟩
  · simp [List.isEmpty_iff, hne]
  · rw [List.all_eq_true]
    exact hv

theorem validateAvailability_false_of (a : Availability)
    (hex : ∃ s ∈ a.timeSlots, validSlot s = false) : validateAvailability a = false := by
  unfold validateAvailability
  obtain ⟨s, hs, hv⟩ := hex
  have hall : a.timeSlots.all validSlot = false := by
    rw [List.all_eq_false]
    exact ⟨s, hs, by simp [hv]⟩
  simp [hall]

theorem findAvail_insertAvail_self (db : DB) (m : Nat) (d : CalDate) (a : Availability)
    (hf : findAvail db m d = none) (hm : a.managerId = m) (hd : a.date = d) :
    findAvail (insertAvail db a) m d = some a := by
  simp only [findAvail, insertAvail] at hf ⊢
  rw [List.find?_append, hf]
  simp [hm, hd]

/-- Processing dates not containing `d` leaves the record found at
(manager, `d`) untouched. -/
theorem setWeekendsLoop_preserves_find (m : Nat) (p : AvailPayload) :
    ∀ (ds : List CalDate) (db : DB) (acc : List Availability) (d : CalDate)
      (r : Availability), DBinv db → d ∉ ds → findAvail db m d = some r →
      findAvail (setWeekendsLoop m p ds db acc).2.1 m d = some r := by
  intro ds
  induction ds with
  | nil =>
    intro db acc d r _ _ hf
    exact hf
  | cons d0 rest ih =>
    intro db acc d r h hd hf
    have hd0 : d ≠ d0 := fun e => hd (e ▸ List.mem_cons_self d0 rest)
    have hdr : d ∉ rest := fun e => hd (List.mem_cons_of_mem d0 e)
    have hkey := List.find?_some hf
    simp only [decide_eq_true_eq] at hkey
    unfold setWeekendsLoop
    cases hf0 : findAvail db m d0 with
    | some a =>
      have hkey0 := List.find?_some hf0
      simp only [decide_eq_true_eq] at hkey0
      have h1 : DBinv (putAvail db (payloadUpdate a p)) :=
        DBinv_putAvail_update h hf0 rfl rfl rfl
      have hra : r ≠ a := by
        intro e
        apply hd0
        rw [← hkey.2, e, hkey0.2]
      have hid2 : r.id ≠ a.id :=
        (h.1.forall availDistinct_symm (List.mem_of_find?_eq_some hf)
          (List.mem_of_find?_eq_some hf0) hra).1
      have hkeep : findAvail (putAvail db (payloadUpdate a p)) m d = some r :=
        findAvail_putAvail_other db m d (payloadUpdate a p) r hf hid2
          (fun hcon => hd0 (hcon.2.symm.trans hkey0.2))
      dsimp only
      split
      · exact ih _ _ _ _ h1 hdr hkeep
      · exact hf
    | none =>
      have h1 : DBinv (insertAvail db (payloadNew db.nextId m d0 p)) :=
        DBinv_insertAvail h hf0 rfl rfl rfl
      have hkeep : findAvail (insertAvail db (payloadNew db.nextId m d0 p)) m d = some r :=
        findAvail_insertAvail_of_found db m d _ r hf
      dsimp only
      split
      · exact ih _ _ _ _ h1 hdr hkeep
      · exact hf

/-- When the payload validates, the loop succeeds and every processed date ends
with a record carrying the payload's fields. -/
theorem setWeekendsLoop_all_ok (m : Nat) (p : AvailPayload)
    (hv : ∀ s ∈ p.timeSlots, validSlot s = true) :
    ∀ (ds : List CalDate) (db : DB) (acc : List Availability), DBinv db →
      (setWeekendsLoop m p ds db acc).1 = .ok ∧
      DBinv (setWeekendsLoop m p ds db acc).2.1 ∧
      ∀ d ∈ ds, ∃ a, findAvail (setWeekendsLoop m p ds db acc).2.1 m d = some a ∧
        a.managerId = m ∧ a.date = d ∧ a.timeSlots = weekendSlots p ∧
        a.isFullDay = p.isFullDay ∧ a.status = p.status := by
  intro ds
  induction ds with
  | nil =>
    intro db acc h
    exact ⟨rfl, h, by simp⟩
  | cons d rest ih =>
    intro db acc h
    unfold setWeekendsLoop
    cases hf : findAvail db m d with
    | some a =>
      have hkey := List.find?_some hf
      simp only [decide_eq_true_eq] at hkey
      have hval : validateAvailability (payloadUpdate a p) = true :=
        validateAvailability_true_of _ (weekendSlots_ne_nil p) (weekendSlots_valid p hv)
      have h1 : DBinv (putAvail db (payloadUpdate a p)) :=
        DBinv_putAvail_update h hf rfl rfl rfl
      have hfound : findAvail (putAvail db (payloadUpdate a p)) m d
          = some (payloadUpdate a p) :=
        findAvail_putAvail_same db m d a _ hf rfl hkey.1 hkey.2
      obtain ⟨hok, hinv2, hall⟩ :=
        ih (putAvail db (payloadUpdate a p)) (acc ++ [payloadUpdate a p]) h1
      dsimp only
      split
      · refine ⟨hok, hinv2, ?_⟩
        intro d2 hd2
        rcases List.mem_cons.mp hd2 with rfl | hd2
        · by_cases hdr : d2 ∈ rest
          · exact hall d2 hdr
          · exact ⟨payloadUpdate a p,
              setWeekendsLoop_preserves_find m p rest _ _ d2 _ h1 hdr hfound,
              hkey.1, hkey.2, rfl, rfl, rfl⟩
        · exact hall d2 hd2
      · next hcontra => exact absurd hval hcontra
    | none =>
      have hval : validateAvailability (payloadNew db.nextId m d p) = true :=
        validateAvailability_true_of _ (weekendSlots_ne_nil p) (weekendSlots_valid p hv)
      have h1 : DBinv (insertAvail db (payloadNew db.nextId m d p)) :=
        DBinv_insertAvail h hf rfl rfl rfl
      have hfound : findAvail (insertAvail db (payloadNew db.nextId m d p)) m d
          = some (payloadNew db.nextId m d p) :=
        findAvail_insertAvail_self db m d _ hf rfl rfl
      obtain ⟨hok, hinv2, hall⟩ :=
        ih (insertAvail db (payloadNew db.nextId m d p))
          (acc ++ [payloadNew db.nextId m d p]) h1
      dsimp only
      split
      · refine ⟨hok, hinv2, ?_⟩
        intro d2 hd2
        rcases List.mem_cons.mp hd2 with rfl | hd2
        · by_cases hdr : d2 ∈ rest
          · exact hall d2 hdr
          · exact ⟨payloadNew db.nextId m d2 p,
              setWeekendsLoop_preserves_find m p rest _ _ d2 _ h1 hdr hfound,
              rfl, rfl, rfl, rfl, rfl⟩
        · exact hall d2 hd2
      · next hcontra => exact absurd hval hcontra

/-- C9 counterexample: July 2025 has eight weekend dates to process, but with a
payload whose save fails the whole batch aborts with a single ServerError at
the first date: no per-date outcomes are reported and no date is processed —
contradicting the claim that a failure on one date leaves the remaining dates
processed and reported. -/
theorem C9_batch_aborts_on_failure :
    (weekendDates 2025 7).length = 8 ∧
      (setAllWeekends c9Db 7 ⟨2025, 7, 15⟩ c9BadPayload).1 = .serverError ∧
      (setAllWeekends c9Db 7 ⟨2025, 7, 15⟩ c9BadPayload).2.1 = c9Db ∧
      (setAllWeekends c9Db 7 ⟨2025, 7, 15⟩ c9BadPayload).2.2 = [] := by
  decide

/-- C9 (amended): the weekend batch runs sequentially inside one try block.
When the payload validates, it does apply `setAvailability` semantics to every
Saturday/Sunday of the month except a 1st-of-month, and returns ok.  But a
save failure aborts the whole request with ServerError instead of reporting
per-date outcomes: with an invalid slot payload the batch dies at the first
weekend date and the store is left as it was (since save validation depends
only on the shared payload, a failure can only happen at the first date; a
mid-batch failure would likewise keep earlier writes and skip the rest, per
`setWeekendsLoop`). -/
theorem C9_weekend_batch_behavior
    (db : DB) (m : Nat) (bodyDate : CalDate) (p : AvailPayload)
    (hday : bodyDate.day ≠ 1) (hinv : DBinv db) :
    ((∀ s ∈ p.timeSlots, validSlot s = true) →
      (setAllWeekends db m bodyDate p).1 = .ok ∧
        ∀ d ∈ weekendDates bodyDate.year bodyDate.month,
          ∃ a, findAvail (setAllWeekends db m bodyDate p).2.1 m d = some a ∧
            a.managerId = m ∧ a.date = d ∧ a.timeSlots = weekendSlots p ∧
            a.isFullDay = p.isFullDay ∧ a.status = p.status) ∧
    ((∃ s ∈ p.timeSlots, validSlot s = false) →
      weekendDates bodyDate.year bodyDate.month ≠ [] →
      (setAllWeekends db m bodyDate p).1 = .serverError ∧
        (setAllWeekends db m bodyDate p).2.1 = db ∧
        (setAllWeekends db m bodyDate p).2.2 = []) := by
  constructor
  · intro hv
    unfold setAllWeekends
    rw [if_neg hday]
    obtain ⟨hok, _, hall⟩ :=
      setWeekendsLoop_all_ok m p hv (weekendDates bodyDate.year bodyDate.month) db [] hinv
    exact ⟨hok, hall⟩
  · intro hbad hne
    have hpne : p.timeSlots ≠ [] := by
      obtain ⟨s, hs, _⟩ := hbad
      exact List.ne_nil_of_mem hs
    have hws : weekendSlots p = p.timeSlots := weekendSlots_of_ne_nil p hpne
    obtain ⟨d0, rest, hdd⟩ :=
      List.exists_cons_of_ne_nil hne
    unfold setAllWeekends
    rw [if_neg hday, hdd]
    unfold setWeekendsLoop
    cases hf : findAvail db m d0 with
    | some a =>
      have hfail : validateAvailability (payloadUpdate a p) = false := by
        apply validateAvailability_false_of
        obtain ⟨s, hs, hb⟩ := hbad
        refine ⟨s, ?_, hb⟩
        show s ∈ weekendSlots p
        rw [hws]
        exact hs
      have hne2 : validateAvailability (payloadUpdate a p) ≠ true := by
        rw [hfail]
        exact Bool.false_ne_true
      dsimp only
      split
      · next hcontra => exact absurd hcontra hne2
      · exact ⟨rfl, rfl, rfl⟩
    | none =>
      have hfail : validateAvailability (payloadNew db.nextId m d0 p) = false := by
        apply validateAvailability_false_of
        obtain ⟨s, hs, hb⟩ := hbad
        refine ⟨s, ?_, hb⟩
        show s ∈ weekendSlots p
        rw [hws]
        exact hs
      have hne2 : validateAvailability (payloadNew db.nextId m d0 p) ≠ true := by
        rw [hfail]
        exact Bool.false_ne_true
      dsimp only
      split
      · next hcontra => exact absurd hcontra hne2
      · exact ⟨rfl, rfl, rfl⟩

/-- Witness for C9's amended theorem at a concrete input (July 2025, empty
store, valid payload): the success branch applies. -/
theorem C9_witness :
    (⟨2025, 7, 15⟩ : CalDate).day ≠ 1 ∧ DBinv c9Db ∧
      (∀ s ∈ c9GoodPayload.timeSlots, validSlot s = true) ∧
      ((setAllWeekends c9Db 7 ⟨2025, 7, 15⟩ c9GoodPayload).1 = .ok ∧
        ∀ d ∈ weekendDates 2025 7,
          ∃ a, findAvail (setAllWeekends c9Db 7 ⟨2025, 7, 15⟩ c9GoodPayload).2.1 7 d
              = some a ∧
            a.managerId = 7 ∧ a.date = d ∧ a.timeSlots = weekendSlots c9GoodPayload ∧
            a.isFullDay = c9GoodPayload.isFullDay ∧ a.status = c9GoodPayload.status) :=
  ⟨by decide, by decide, by decide,
    (C9_weekend_batch_behavior c9Db 7 ⟨2025, 7, 15⟩ c9GoodPayload (by decide)
        (by decide)).1 (by decide)⟩

end EventManagerApp
